import Mathlib

/-!
Verification of the immuto reducer / cursor library (src/index.ts).

Shallow embedding of the composable reducer algebra from `src/index.ts`:

* actions `{ type, payload }` and the reducer chain built by repeated
  `.action(definition)` registrations (`chain` / `reducer`);
* the `snapshot` cursor over a Redux-like store, and the `items`
  navigation combinator;
* the `collection` case-reducer with its `add` / `update` / `remove`
  payloads and the pluggable `CollectionOperations`
  (`builtInOperations` for plain JS-object maps, `immutableMapOperations`
  for Immutable.js maps, `arrayOperations` for arrays);
* the `ensureReducer` setter synthesizer, which pattern-matches the
  source text of a getter against the two regular expressions
  `matchFunction` and `matchLambda`.

JavaScript values are modelled as follows: a possibly-`undefined` state
is `Option S`; a plain-object map is an insertion-ordered association
list `List (K × I)`; an Immutable.js map is a semantic map `K → Option I`;
a JS array (which may contain holes) is a `List (Option I)` where `none`
is a hole; and getter source text is a `List Char`.
-/

namespace Immuto

/-- An action `{ type, payload }` (src/index.ts, interface `Action`).
The payload type is monomorphised to `P` for a whole chain, as the
dispatch code is untyped at runtime. -/
structure MAction (P : Type) where
  type : String
  payload : P

/-- A registered case: `{ type, reduce }` (src/index.ts, interface
`ActionDefinition`).  The state argument is `Option S` because at
runtime a JS handler receives whatever value the store holds, which is
`undefined` before initialisation. -/
structure CaseDef (S P : Type) where
  type : String
  reduce : Option S → P → S

/-- The reducer built by `reducer(empty).action(c1).action(c2)...`:
`chain` (src/index.ts lines 124-158) prepends each new case in front of
the previous reduce function, and the innermost function is the seed
`s => s === undefined ? empty : s` (line 169).  The list holds the cases
in reverse registration order (most recently registered first), which is
exactly the order the chained closures test them in. -/
def chainReduce (empty : S) : List (CaseDef S P) → Option S → MAction P → S
  | [], st, _ => st.getD empty
  | c :: rest, st, a =>
      if a.type = c.type then c.reduce st a.payload
      else chainReduce empty rest st a

/-- A Redux-like store (src/index.ts, interface `Store`): current state
plus the transition function installed at creation. -/
structure StoreModel (S A : Type) where
  state : S
  reduce : S → A → S

/-- Dispatch: `store.dispatch(a)` computes and installs the new state. -/
def storeDispatch (store : StoreModel S A) (a : A) : StoreModel S A :=
  { store with state := store.reduce store.state a }

/-- The store after dispatching a whole trace of actions. -/
def runStore (store : StoreModel S A) : List A → StoreModel S A
  | [] => store
  | a :: tr => runStore (storeDispatch store a) tr

/-- A cursor is represented extensionally by the state it exposes after
each trace of dispatches: `c []` is `c.state`, and dispatching `a`
yields the cursor `fun tr => c (a :: tr)`. -/
def CursorProc (S A : Type) : Type := List A → S

/-- The state exposed by a cursor: the state at the empty trace. -/
def procState (c : CursorProc S A) : S := c []

/-- Cursor dispatch `cursor(a)`: the cursor obtained by dispatching `a` first. -/
def procDispatch (c : CursorProc S A) (a : A) : CursorProc S A :=
  fun tr => c (a :: tr)

/-- Snapshot of a store, `snapshot(store)` (src/index.ts lines 214-232): `state` is
`store.getState()`, and dispatching sends the action to the store and
takes a fresh snapshot, so after a trace `tr` the exposed state is the
store's state after dispatching `tr`. -/
def snapshot (store : StoreModel S A) : CursorProc S A :=
  fun tr => (runStore store tr).state

/-- Navigation: `items(fetch, update)(outer, key)` (src/index.ts lines 244-263):
the inner cursor's state is `fetch(outer.state, key)` and dispatching an
inner action `a` is `items(fetch, update)(outer(update(key, a)), key)`. -/
def itemsCursor (fetch : OS → K → IS) (rewrap : K → IA → OA)
    (outer : CursorProc OS OA) (key : K) : CursorProc IS IA
  | [] => fetch (procState outer) key
  | a :: tr => itemsCursor fetch rewrap (procDispatch outer (rewrap key a)) key tr

/-- Interface `MinimalReducer` (src/index.ts lines 60-70): an inner reduce
function together with a suitable empty state. -/
structure MinimalReducer (I A : Type) where
  reduce : I → A → I
  empty : I

/-- Interface `CollectionOperations` (src/index.ts lines 292-296). -/
structure CollectionOperations (C K I : Type) where
  get : C → K → I → I
  set : C → K → I → C
  remove : C → K → I → C

/-- The `Update` payload of collection actions (src/index.ts lines
286-290): `{ key, update?, remove? }`, with `undefined` fields modelled
by `none` / `false`. -/
structure Update (K U : Type) where
  key : K
  update : Option U
  remove : Bool

/-- Payload of `add(key)`: `{ key }` (src/index.ts line 461). -/
def addPayload (key : K) : Update K U := ⟨key, none, false⟩

/-- Payload of `remove(key)`: `{ key, remove: true }` (line 465). -/
def removePayload (key : K) : Update K U := ⟨key, none, true⟩

/-- Payload of `update(key, u)`: `{ key, update: u }` (line 469). -/
def updatePayload (key : K) (u : U) : Update K U := ⟨key, some u, false⟩

/-- The collection case-reduce (src/index.ts lines 474-485), with the
explicit owner `set` (the `ensuredSet`): fetch the collection, resolve
the item (empty marker when absent), then branch on `remove` / `update`
and commit back to the owner. -/
def collectionReduce (red : MinimalReducer I A) (ops : CollectionOperations C K I)
    (get : S → C) (set : S → C → S) (state : S) (p : Update K A) : S :=
  let collection := get state
  let value := ops.get collection p.key red.empty
  set state
    (if p.remove then ops.remove collection p.key red.empty
     else ops.set collection p.key
       (match p.update with
        | some u => red.reduce value u
        | none => value))

/-- Plain JS-object maps, modelled as insertion-ordered association
lists (JS objects preserve insertion order; `assign` overwrites an
existing key in place and appends a new one).  `builtInOperations`
(src/index.ts lines 314-328): `get` uses `hasOwnProperty`, `set` is
`amend(items, { [key]: item })`, `remove` copies and `delete`s. -/
def builtInOperations [DecidableEq K] : CollectionOperations (List (K × I)) K I where
  get items key emptyItem :=
    match items.find? (fun kv => decide (kv.1 = key)) with
    | some kv => kv.2
    | none => emptyItem
  set items key item :=
    if items.any (fun kv => decide (kv.1 = key)) then
      items.map (fun kv => if kv.1 = key then (key, item) else kv)
    else items ++ [(key, item)]
  remove items key _ :=
    items.filter (fun kv => !decide (kv.1 = key))

/-- Operations `immutableMapOperations` (src/index.ts lines 298-312) over an
Immutable.js map, modelled semantically as `K → Option I`:
`get` is `has ? get : emptyItem`, `set` and `remove` are the
Immutable.js persistent update and delete. -/
def immutableMapOperations [DecidableEq K] : CollectionOperations (K → Option I) K I where
  get items key emptyItem := (items key).getD emptyItem
  set items key item := fun k => if k = key then some item else items k
  remove items key _ := fun k => if k = key then none else items k

/-- Operations `arrayOperations` (src/index.ts lines 338-357) over JS arrays,
modelled as `List (Option I)` where `none` is a hole (`undefined`):

* `get`: `items[key] === undefined ? emptyItem : items[key]` — out of
  bounds and holes both read as `undefined`;
* `set`: `items.slice(0); items.splice(key, 1, item)` — `splice` clamps
  the start index to the length, so an out-of-bounds key appends;
* `remove`: `items.slice(0); items[key] = emptyItem` — an in-bounds
  assignment overwrites, an out-of-bounds assignment extends the array
  to length `key + 1`, creating holes. -/
def arrayOperations : CollectionOperations (List (Option I)) Nat I where
  get items key emptyItem :=
    match items[key]? with
    | some (some v) => v
    | _ => emptyItem
  set items key item :=
    if key < items.length then items.set key (some item)
    else items ++ [some item]
  remove items key emptyItem :=
    if key < items.length then items.set key (some emptyItem)
    else items ++ List.replicate (key - items.length) none ++ [some emptyItem]

/-! ## The `ensureReducer` setter synthesizer (src/index.ts lines 644-673)

`ensureReducer` stringifies the getter and runs two regular expressions
over the source text:

* `matchFunction = /function\s*[a-z]*\s*\(\s*([a-z]+)\s*\)\s*\{\s*return\s+([a-z]+)\.([a-z]+)/i`
* `matchLambda = /\(?\s*([a-z]+)\s*\)?\s*\=\>\s*([a-z]+)\.([a-z]+)/i`

Both are unanchored and case-insensitive.  We implement them directly:
`exec` scans for the leftmost position where the pattern matches; at a
given position each `[a-z]+` / `[a-z]*` / `\s*` is matched greedily,
which is equivalent to the backtracking semantics here because every
maximal letter (resp. whitespace) run is followed by a pattern element
that cannot match a letter (resp. whitespace). -/

/-- The class `[a-z]` under the `/i` flag: any ASCII letter. -/
def jsAlpha (c : Char) : Bool := c.isAlpha

/-- The class `\s`, restricted to the four common whitespace characters (the
source texts involved contain no exotic whitespace). -/
def jsSpace (c : Char) : Bool :=
  c = ' ' || c = '\t' || c = '\n' || c = '\r'

/-- Consume an optional literal character (`\(?`, `\)?`). -/
def stripChar (c : Char) (s : List Char) : List Char :=
  match s with
  | [] => []
  | x :: t => if x = c then t else s

/-- Require a literal character; fail otherwise. -/
def expectChar (c : Char) (s : List Char) : Option (List Char) :=
  match s with
  | x :: t => if x = c then some t else none
  | [] => none

/-- Require a case-insensitive literal keyword (the `/i` flag applies
to the literals `function` and `return` too). -/
def stripKeyword : List Char → List Char → Option (List Char)
  | [], s => some s
  | _ :: _, [] => none
  | k :: ks, c :: cs => if c.toLower = k then stripKeyword ks cs else none

/-- The three capture groups of either regular expression. -/
def Groups : Type := List Char × List Char × List Char

/-- Match `matchLambda` at the current position. -/
def parseLambdaAt (s : List Char) : Option Groups :=
  let s1 := (stripChar '(' s).dropWhile jsSpace
  let g1 := s1.takeWhile jsAlpha
  if g1 = [] then none else
  let s2 := stripChar ')' ((s1.dropWhile jsAlpha).dropWhile jsSpace)
  match expectChar '=' (s2.dropWhile jsSpace) with
  | none => none
  | some s3 =>
    match expectChar '>' s3 with
    | none => none
    | some s4 =>
      let s5 := s4.dropWhile jsSpace
      let g2 := s5.takeWhile jsAlpha
      if g2 = [] then none else
      match expectChar '.' (s5.dropWhile jsAlpha) with
      | none => none
      | some s6 =>
        let g3 := s6.takeWhile jsAlpha
        if g3 = [] then none else some (g1, g2, g3)

/-- The left brace character (`{`). -/
def lbraceChar : Char := Char.ofNat 123

/-- Match `matchFunction` at the current position. -/
def parseFunctionAt (s : List Char) : Option Groups :=
  match stripKeyword ['f','u','n','c','t','i','o','n'] s with
  | none => none
  | some s1 =>
    let s2 := ((s1.dropWhile jsSpace).dropWhile jsAlpha).dropWhile jsSpace
    match expectChar '(' s2 with
    | none => none
    | some s3 =>
      let s4 := s3.dropWhile jsSpace
      let g1 := s4.takeWhile jsAlpha
      if g1 = [] then none else
      match expectChar ')' ((s4.dropWhile jsAlpha).dropWhile jsSpace) with
      | none => none
      | some s5 =>
        match expectChar lbraceChar (s5.dropWhile jsSpace) with
        | none => none
        | some s6 =>
          match stripKeyword ['r','e','t','u','r','n'] (s6.dropWhile jsSpace) with
          | none => none
          | some s7 =>
            match s7 with
            | [] => none
            | c :: t =>
              if jsSpace c then
                let s8 := t.dropWhile jsSpace
                let g2 := s8.takeWhile jsAlpha
                if g2 = [] then none else
                match expectChar '.' (s8.dropWhile jsAlpha) with
                | none => none
                | some s9 =>
                  let g3 := s9.takeWhile jsAlpha
                  if g3 = [] then none else some (g1, g2, g3)
              else none

/-- Scan `matchLambda.exec(src)`: leftmost match. -/
def execLambda : List Char → Option Groups
  | [] => parseLambdaAt []
  | c :: t =>
    match parseLambdaAt (c :: t) with
    | some r => some r
    | none => execLambda t

/-- Scan `matchFunction.exec(src)`: leftmost match. -/
def execFunction : List Char → Option Groups
  | [] => parseFunctionAt []
  | c :: t =>
    match parseFunctionAt (c :: t) with
    | some r => some r
    | none => execFunction t

/-- Combined scan `matchFunction.exec(src) || matchLambda.exec(src)`
(src/index.ts line 661). -/
def ensureReducerMatch (src : List Char) : Option Groups :=
  match execFunction src with
  | some r => some r
  | none => execLambda src

/-- The decision logic of `ensureReducer` when no explicit setter is
given (src/index.ts lines 656-672): throw "too complex" when neither
regex matches, throw "inconsistent parameter usage" when the first two
groups differ, otherwise synthesize a setter for the field named by the
third group.  A thrown `Error` is `Except.error`. -/
def synthField (src : List Char) : Except String (List Char) :=
  match ensureReducerMatch src with
  | none => Except.error "too complex to parse, needs explicit reduce"
  | some (g1, g2, g3) =>
    if g1 = g2 then Except.ok g3
    else Except.error "inconsistent parameter usage"

/-- Owner states seen by a synthesized setter: a JS object as a map
from field names to values. -/
def JsObj (V : Type) : Type := String → Option V

/-- Immutable overwrite `amend(state, \x7b [field]: value \x7d)`
(src/index.ts lines 640-642): copy every field, overwrite `field`. -/
def jsAmend (state : JsObj V) (field : String) (v : V) : JsObj V :=
  fun f => if f = field then some v else state f

/-- The setter `(state, value) => amend(state, { [matched[3]]: value })`
built by `ensureReducer` (src/index.ts line 672). -/
def synthSetter (field : List Char) : JsObj V → V → JsObj V :=
  fun state v => jsAmend state (String.mk field) v

/-- Full `ensureReducer(context, fetch, reduce)`: an explicit setter
is returned unchanged, otherwise one is synthesized from the getter's
source text (or a configuration error is thrown). -/
def ensureReducer (explicit : Option (JsObj V → V → JsObj V))
    (fetchSrc : List Char) : Except String (JsObj V → V → JsObj V) :=
  match explicit with
  | some reduce => Except.ok reduce
  | none => (synthField fetchSrc).map synthSetter

/-! ## Theorems -/

/-- C1: the collection case-reduce follows the priority order of the
`Update` payload: `remove = true` deletes the key from the fetched
collection and ignores `update`; otherwise a present `update` is applied
via the inner reducer to the item `operations.get` resolves at the key
(the empty item when absent); otherwise the key is ensured to exist at
its current resolved value (the empty item when absent); in every branch
the result is committed back to the owner via `set`. -/
theorem claim_C1 (red : MinimalReducer I A) (ops : CollectionOperations C K I)
    (get : S → C) (set : S → C → S) (state : S) (p : Update K A) :
    (collectionReduce red ops get set state p =
      if p.remove then set state (ops.remove (get state) p.key red.empty)
      else match p.update with
        | some u => set state (ops.set (get state) p.key
            (red.reduce (ops.get (get state) p.key red.empty) u))
        | none => set state (ops.set (get state) p.key
            (ops.get (get state) p.key red.empty)))
    ∧ ∀ (k : K) (u : Option A),
      collectionReduce red ops get set state ⟨k, u, true⟩ =
      collectionReduce red ops get set state ⟨k, none, true⟩ := by
  constructor
  · obtain ⟨k, u, r⟩ := p
    cases r <;> cases u <;> rfl
  · intro k u
    rfl

/-- C2: in a reducer chain built by repeated `.action(case)`
registrations (held most-recently-registered first), dispatching an
action whose tag equals a registered case's tag invokes exactly that
case's reduce on the state and the action's payload, regardless of the
other cases; a case registered later shadows every earlier case with
the same tag. -/
theorem claim_C2 (empty : S) (newer older : List (CaseDef S P)) (c : CaseDef S P)
    (st : Option S) (a : MAction P)
    (hshadow : ∀ c' ∈ newer, c'.type ≠ c.type) (htag : a.type = c.type) :
    chainReduce empty (newer ++ c :: older) st a = c.reduce st a.payload := by
  induction newer with
  | nil => simp [chainReduce, htag]
  | cons c' rest ih =>
    have hne : ¬ a.type = c'.type := by
      rw [htag]
      exact fun h => hshadow c' (List.mem_cons_self c' rest) h.symm
    simp only [List.cons_append, chainReduce, if_neg hne]
    exact ih fun x hx => hshadow x (List.mem_cons_of_mem c' hx)

/-- C3: dispatching an action through a `snapshot` cursor sends it to
the underlying store, and the returned cursor is exactly a fresh
snapshot of the store after `store.dispatch(a)` — in particular its
state is the store's post-dispatch `getState()` result. -/
theorem claim_C3 (store : StoreModel S A) (a : A) :
    procState (procDispatch (snapshot store) a) = (storeDispatch store a).state
    ∧ procDispatch (snapshot store) a = snapshot (storeDispatch store a) := by
  exact ⟨rfl, funext fun _ => rfl⟩

/-- C4: an action whose tag matches no registered case falls through
the whole chain to the pass-through seed: a defined state is returned
unchanged (a silent no-op), and an undefined state yields the chain's
seed `empty` value. -/
theorem claim_C4 (empty : S) (cases : List (CaseDef S P)) (s : S) (a : MAction P)
    (h : ∀ c ∈ cases, c.type ≠ a.type) :
    chainReduce empty cases (some s) a = s
    ∧ chainReduce empty cases none a = empty := by
  induction cases with
  | nil => exact ⟨rfl, rfl⟩
  | cons c rest ih =>
    have hne : ¬ a.type = c.type :=
      fun hc => h c (List.mem_cons_self c rest) hc.symm
    simp only [chainReduce, if_neg hne]
    exact ih fun x hx => h x (List.mem_cons_of_mem c hx)

/-- C5: the inner cursor built by `items(fetch, rewrap)` from an outer
cursor and a key has state `fetch(outer.state, key)`; dispatching an
inner action `a` equals dispatching `rewrap(key, a)` on the outer
cursor and re-deriving the inner cursor at the same key; and the inner
cursor holds no state of its own: after any trace of inner dispatches
it exposes exactly the fetch of the outer cursor's state after the
rewrapped trace. -/
theorem claim_C5 (fetch : OS → K → IS) (rewrap : K → IA → OA)
    (outer : CursorProc OS OA) (key : K) :
    procState (itemsCursor fetch rewrap outer key) = fetch (procState outer) key
    ∧ (∀ a, procDispatch (itemsCursor fetch rewrap outer key) a
        = itemsCursor fetch rewrap (procDispatch outer (rewrap key a)) key)
    ∧ ∀ tr : List IA, itemsCursor fetch rewrap outer key tr
        = fetch (outer (tr.map (rewrap key))) key := by
  refine ⟨rfl, fun a => funext fun _ => rfl, fun tr => ?_⟩
  induction tr generalizing outer with
  | nil => rfl
  | cons a tr ih => exact ih (procDispatch outer (rewrap key a))

/-- A sample case with tag "B" for witnesses. -/
def caseB : CaseDef Nat Nat := ⟨"B", fun st p => st.getD 0 * p⟩

/-- A sample case with tag "A" (registered later). -/
def caseA1 : CaseDef Nat Nat := ⟨"A", fun st p => st.getD 0 + p⟩

/-- A sample case with tag "A" (registered earlier, shadowed). -/
def caseA2 : CaseDef Nat Nat := ⟨"A", fun st p => st.getD 0 + 100 * p⟩

/-- Witness for C2: in the chain `[caseB, caseA1, caseA2]` the action
tagged "A" with payload 3 on state 5 is handled by `caseA1`
(the later-registered of the two "A" cases), giving `5 + 3 = 8`. -/
theorem claim_C2_witness :
    caseB.type ≠ "A"
    ∧ chainReduce 0 [caseB, caseA1, caseA2] (some 5) ⟨"A", 3⟩ = 8 :=
  ⟨by decide,
   (claim_C2 0 [caseB] [caseA2] caseA1 (some 5) ⟨"A", 3⟩ (by decide) rfl).trans rfl⟩

/-- Witness for C4: the unmatched tag "Z" leaves the defined state 5
unchanged and maps the undefined state to the seed 7. -/
theorem claim_C4_witness :
    caseB.type ≠ "Z"
    ∧ chainReduce 7 [caseB] (some 5) ⟨"Z", 3⟩ = 5
    ∧ chainReduce 7 [caseB] none ⟨"Z", 3⟩ = 7 :=
  ⟨by decide,
   (claim_C4 7 [caseB] 5 ⟨"Z", 3⟩ (by decide)).1,
   (claim_C4 7 [caseB] 5 ⟨"Z", 3⟩ (by decide)).2⟩

/-- The inner reducer used in collection witnesses: add the payload,
empty item 0. -/
def natAddReducer : MinimalReducer Nat Nat := ⟨fun i a => i + a, 0⟩

/-- C6 counterexample: the add-then-update equivalence fails on the
shipped `arrayOperations` at an out-of-bounds absent key.  With the
owner being the collection itself and `items = [some 7]`, key 5 is
absent (`get` resolves it to the empty item 0), yet `update(5, 5)`
appends once (splice clamps the write to the end), giving
`[some 7, some 5]`, while `add(5)` followed by `update(5, 5)` appends
twice, giving `[some 7, some 0, some 5]`. -/
theorem claim_C6_counterexample :
    arrayOperations.get [some (7 : Nat)] 5 natAddReducer.empty = natAddReducer.empty
    ∧ collectionReduce natAddReducer arrayOperations id (fun _ c => c)
        ([some 7] : List (Option Nat)) (updatePayload 5 5)
      ≠ collectionReduce natAddReducer arrayOperations id (fun _ c => c)
          (collectionReduce natAddReducer arrayOperations id (fun _ c => c)
            ([some 7] : List (Option Nat)) (addPayload 5))
          (updatePayload 5 5) := by
  constructor
  · rfl
  · decide

/-- C6 (amended): on a key the collection resolves to the empty item
(an absent key), `update(k, a)` yields the same owner state as `add(k)`
followed by `update(k, a)` — the absent item is materialized at the
inner reducer's empty value before the inner action is applied —
provided the collection operations satisfy the get-after-set and
set-after-set laws at that key and the owner accessors are lawful at
the states involved.  The map-backed operations satisfy these laws at
every key and `arrayOperations` satisfies them at in-bounds keys, but
`arrayOperations` violates them at out-of-bounds keys, where each
clamped write appends and the equivalence genuinely fails in the code
(see the counterexample). -/
theorem claim_C6 (red : MinimalReducer I A) (ops : CollectionOperations C K I)
    (get : S → C) (set : S → C → S) (state : S) (k : K) (a : A)
    (habs : ops.get (get state) k red.empty = red.empty)
    (hg : get (set state (ops.set (get state) k red.empty))
          = ops.set (get state) k red.empty)
    (hs : set (set state (ops.set (get state) k red.empty))
            (ops.set (get state) k (red.reduce red.empty a))
          = set state (ops.set (get state) k (red.reduce red.empty a)))
    (hops_get : ops.get (ops.set (get state) k red.empty) k red.empty = red.empty)
    (hops_set : ops.set (ops.set (get state) k red.empty) k (red.reduce red.empty a)
          = ops.set (get state) k (red.reduce red.empty a)) :
    collectionReduce red ops get set state (updatePayload k a)
    = collectionReduce red ops get set
        (collectionReduce red ops get set state (addPayload k))
        (updatePayload k a) := by
  have e1 : collectionReduce red ops get set state (addPayload k)
      = set state (ops.set (get state) k (ops.get (get state) k red.empty)) := rfl
  rw [habs] at e1
  have e2 : collectionReduce red ops get set state (updatePayload k a)
      = set state (ops.set (get state) k
          (red.reduce (ops.get (get state) k red.empty) a)) := rfl
  rw [e1, e2, habs]
  have e3 : collectionReduce red ops get set
        (set state (ops.set (get state) k red.empty)) (updatePayload k a)
      = set (set state (ops.set (get state) k red.empty))
          (ops.set (get (set state (ops.set (get state) k red.empty))) k
            (red.reduce
              (ops.get (get (set state (ops.set (get state) k red.empty))) k red.empty)
              a)) := rfl
  rw [e3, hg, hops_get, hops_set, hs]

/-- Witness for C6 over a plain-object map collection owned directly
(identity accessors): key 1 is absent from the empty map, and
`update(1, 5)` equals `add(1)` then `update(1, 5)`. -/
theorem claim_C6_witness :
    builtInOperations.get ([] : List (Nat × Nat)) 1 0 = 0
    ∧ collectionReduce natAddReducer builtInOperations id (fun _ c => c)
        [] (updatePayload 1 5)
      = collectionReduce natAddReducer builtInOperations id (fun _ c => c)
          (collectionReduce natAddReducer builtInOperations id (fun _ c => c)
            [] (addPayload 1))
          (updatePayload 1 5) :=
  ⟨by decide,
   claim_C6 natAddReducer builtInOperations id (fun _ c => c) [] 1 5
     (by decide) rfl rfl (by decide) (by decide)⟩

/-- Setting an index to the element it already holds is the identity. -/
theorem set_of_getElem? (l : List α) (n : Nat) (a : α) (h : l[n]? = some a) :
    l.set n a = l := by
  induction l generalizing n with
  | nil => simp at h
  | cons x t ih =>
    cases n with
    | zero =>
      simp at h
      simp [h]
    | succ n =>
      simp at h
      simp [ih n h]

/-- Removal `builtInOperations.remove` (object-map `delete`) is idempotent. -/
theorem builtInRemove_idem [DecidableEq K] (items : List (K × I)) (k : K) (e e' : I) :
    builtInOperations.remove (builtInOperations.remove items k e) k e'
    = builtInOperations.remove items k e := by
  simp [builtInOperations, List.filter_filter]

/-- Removal `immutableMapOperations.remove` is idempotent. -/
theorem immutableRemove_idem [DecidableEq K] (items : K → Option I) (k : K) (e e' : I) :
    immutableMapOperations.remove (immutableMapOperations.remove items k e) k e'
    = immutableMapOperations.remove items k e := by
  funext k'
  by_cases h : k' = k <;> simp [immutableMapOperations, h]

/-- Removal `arrayOperations.remove` (overwrite with the empty item, growing the
array on an out-of-bounds index) is idempotent. -/
theorem arrayRemove_idem (items : List (Option I)) (key : Nat) (e : I) :
    arrayOperations.remove (arrayOperations.remove items key e) key e
    = arrayOperations.remove items key e := by
  by_cases h : key < items.length
  · simp only [arrayOperations, if_pos h, List.length_set, if_pos h, List.set_set]
  · have hle : items.length ≤ key := Nat.le_of_not_lt h
    simp only [arrayOperations, if_neg h]
    have hlen : (items ++ List.replicate (key - items.length) none).length = key := by
      simp [Nat.add_sub_cancel' hle]
    have hlt : key < (items ++ List.replicate (key - items.length) none ++ [some e]).length := by
      rw [List.length_append, hlen]
      simp
    rw [if_pos hlt]
    apply set_of_getElem?
    rw [List.getElem?_append_right (by rw [hlen])]
    simp [hlen]

/-- The owner-level idempotence statement for one operations
implementation: applying the collection case-reduce with the
`remove(k)` payload twice yields the same owner state as applying it
once, given the owner get/set laws at the states involved. -/
def removeTwiceIsOnce (ops : CollectionOperations C K I) : Prop :=
  ∀ (A S : Type) (red : MinimalReducer I A) (get : S → C) (set : S → C → S)
    (state : S) (k : K),
    get (set state (ops.remove (get state) k red.empty))
      = ops.remove (get state) k red.empty →
    set (set state (ops.remove (get state) k red.empty))
        (ops.remove (get state) k red.empty)
      = set state (ops.remove (get state) k red.empty) →
    collectionReduce red ops get set
        (collectionReduce red ops get set state (removePayload k)) (removePayload k)
      = collectionReduce red ops get set state (removePayload k)

/-- Remove-idempotence of the container operations lifts to the
owner-level statement. -/
theorem removeTwiceIsOnce_of_idem (ops : CollectionOperations C K I)
    (hidem : ∀ (c : C) (k : K) (e : I), ops.remove (ops.remove c k e) k e = ops.remove c k e) :
    removeTwiceIsOnce ops := by
  intro A S red get set state k hg hs
  have e1 : collectionReduce red ops get set state (removePayload k)
      = set state (ops.remove (get state) k red.empty) := rfl
  have e2 : collectionReduce red ops get set
        (set state (ops.remove (get state) k red.empty)) (removePayload k)
      = set (set state (ops.remove (get state) k red.empty))
          (ops.remove (get (set state (ops.remove (get state) k red.empty))) k red.empty) := rfl
  rw [e1, e2, hg, hidem, hs]

/-- C9: the collection case-reduce with the `remove(k)` payload is
idempotent at the owner level for each of the three provided
operations implementations — plain-object maps, Immutable.js maps and
arrays — given the owner get/set laws at the states involved.  (All
three `remove` implementations are total: removing an absent key is
handled, never an error.) -/
theorem claim_C9 :
    (∀ (K I : Type) (_ : DecidableEq K),
      removeTwiceIsOnce (builtInOperations (K := K) (I := I)))
    ∧ (∀ (K I : Type) (_ : DecidableEq K),
      removeTwiceIsOnce (immutableMapOperations (K := K) (I := I)))
    ∧ (∀ (I : Type), removeTwiceIsOnce (arrayOperations (I := I))) := by
  refine ⟨fun K I _ => removeTwiceIsOnce_of_idem _ ?_,
          fun K I _ => removeTwiceIsOnce_of_idem _ ?_,
          fun I => removeTwiceIsOnce_of_idem _ ?_⟩
  · exact fun c k e => builtInRemove_idem c k e e
  · exact fun c k e => immutableRemove_idem c k e e
  · exact fun c k e => arrayRemove_idem c k e

/-- Witness for C9: concrete double-removals over the three container
models, each owned directly through identity accessors. -/
theorem claim_C9_witness :
    (collectionReduce natAddReducer builtInOperations id (fun _ c => c)
        (collectionReduce natAddReducer builtInOperations id (fun _ c => c)
          [(1, 5), (2, 7)] (removePayload 1)) (removePayload 1)
      = collectionReduce natAddReducer builtInOperations id (fun _ c => c)
          [(1, 5), (2, 7)] (removePayload 1))
    ∧ (collectionReduce natAddReducer immutableMapOperations id (fun _ c => c)
        (collectionReduce natAddReducer immutableMapOperations id (fun _ c => c)
          (fun _ => none) (removePayload 1)) (removePayload 1)
      = collectionReduce natAddReducer immutableMapOperations id (fun _ c => c)
          (fun _ => none) (removePayload 1))
    ∧ (collectionReduce natAddReducer arrayOperations id (fun _ c => c)
        (collectionReduce natAddReducer arrayOperations id (fun _ c => c)
          [some 3, some 4] (removePayload 0)) (removePayload 0)
      = collectionReduce natAddReducer arrayOperations id (fun _ c => c)
          [some 3, some 4] (removePayload 0)) :=
  ⟨claim_C9.1 Nat Nat inferInstance Nat _ natAddReducer id (fun _ c => c)
      [(1, 5), (2, 7)] 1 rfl rfl,
   claim_C9.2.1 Nat Nat inferInstance Nat _ natAddReducer id (fun _ c => c)
      (fun _ => none) 1 rfl rfl,
   claim_C9.2.2 Nat Nat _ natAddReducer id (fun _ c => c)
      [some 3, some 4] 0 rfl rfl⟩

/-- C10 counterexample: on an out-of-bounds index the array `remove`
does not return a copy of the same length — `items[key] = emptyItem`
extends the array, so removing index 0 from the empty array yields a
one-element array. -/
theorem claim_C10_counterexample :
    (arrayOperations.remove ([] : List (Option Nat)) 0 0).length
    ≠ ([] : List (Option Nat)).length := by
  decide

/-- C10 (amended): `arrayOperations.remove` never shortens the array;
on an in-bounds key it returns a copy of the same length with the
element at the key overwritten by the empty item and every other index
unchanged (the index itself is not deleted); on an out-of-bounds key it
extends the array to length `key + 1` with the empty item at the key.
This differs from the map-backed operations, whose `remove` deletes the
key (the key is no longer an own property afterwards). -/
theorem claim_C10 :
    (∀ (I : Type) (items : List (Option I)) (key : Nat) (e : I),
      items.length ≤ (arrayOperations.remove items key e).length)
    ∧ (∀ (I : Type) (items : List (Option I)) (key : Nat) (e : I),
        key < items.length →
        (arrayOperations.remove items key e).length = items.length
        ∧ (arrayOperations.remove items key e)[key]? = some (some e)
        ∧ ∀ j, j ≠ key → (arrayOperations.remove items key e)[j]? = items[j]?)
    ∧ (∀ (I : Type) (items : List (Option I)) (key : Nat) (e : I),
        items.length ≤ key →
        (arrayOperations.remove items key e).length = key + 1
        ∧ (arrayOperations.remove items key e)[key]? = some (some e))
    ∧ (∀ (K I : Type) (_ : DecidableEq K) (items : List (K × I)) (k : K) (e : I),
        (builtInOperations.remove items k e).find? (fun kv => decide (kv.1 = k))
        = none) := by
  have hout : ∀ (I : Type) (items : List (Option I)) (key : Nat) (e : I),
      items.length ≤ key →
      (arrayOperations.remove items key e).length = key + 1
      ∧ (arrayOperations.remove items key e)[key]? = some (some e) := by
    intro I items key e hle
    have h : ¬ key < items.length := Nat.not_lt.mpr hle
    have hlen : (items ++ List.replicate (key - items.length) none).length = key := by
      simp [Nat.add_sub_cancel' hle]
    constructor
    · simp only [arrayOperations, if_neg h, List.length_append, hlen]
      simp
    · simp only [arrayOperations, if_neg h]
      rw [List.getElem?_append_right (by rw [hlen])]
      simp [hlen]
  refine ⟨?_, ?_, hout, ?_⟩
  · intro I items key e
    by_cases h : key < items.length
    · simp [arrayOperations, if_pos h]
    · have := (hout I items key e (Nat.le_of_not_lt h)).1
      rw [this]
      exact Nat.le_succ_of_le (Nat.le_of_not_lt h)
  · intro I items key e h
    refine ⟨by simp [arrayOperations, if_pos h], ?_, ?_⟩
    · simp only [arrayOperations, if_pos h]
      exact List.getElem?_set_self h
    · intro j hj
      simp only [arrayOperations, if_pos h]
      exact List.getElem?_set_ne (Ne.symm hj)
  · intro K I _ items k e
    rw [List.find?_eq_none]
    intro x hx
    simp only [builtInOperations] at hx
    rw [List.mem_filter] at hx
    simpa using hx.2

/-- Witness for C10: on `[some 3, some 4]` removing index 0 keeps the
length, writes the empty item at index 0 and leaves index 1 alone;
removing index 0 from the empty array grows it to length 1. -/
theorem claim_C10_witness :
    0 < [some 3, some (4 : Nat)].length
    ∧ (arrayOperations.remove [some 3, some (4 : Nat)] 0 9).length
        = [some 3, some (4 : Nat)].length
    ∧ (arrayOperations.remove [some 3, some (4 : Nat)] 0 9)[0]? = some (some 9)
    ∧ (arrayOperations.remove [some 3, some (4 : Nat)] 0 9)[1]?
        = [some 3, some (4 : Nat)][1]?
    ∧ (arrayOperations.remove ([] : List (Option Nat)) 0 0).length = 0 + 1 :=
  ⟨by decide,
   (claim_C10.2.1 Nat [some 3, some 4] 0 9 (by decide)).1,
   (claim_C10.2.1 Nat [some 3, some 4] 0 9 (by decide)).2.1,
   (claim_C10.2.1 Nat [some 3, some 4] 0 9 (by decide)).2.2 1 (by decide),
   (claim_C10.2.2.1 Nat [] 0 0 (by decide)).1⟩

/-! Helper lemmas about `takeWhile` / `dropWhile` over appended
letter runs, used to run the regex matchers symbolically. -/

/-- Lemma: `takeWhile` passes over a prefix on which the predicate holds. -/
theorem takeWhile_append_all (p : α → Bool) (l r : List α)
    (hl : ∀ c ∈ l, p c = true) :
    (l ++ r).takeWhile p = l ++ r.takeWhile p := by
  induction l with
  | nil => rfl
  | cons x t ih =>
    simp only [List.cons_append, List.takeWhile_cons,
      hl x (List.mem_cons_self x t), if_true,
      ih fun c hc => hl c (List.mem_cons_of_mem x hc)]

/-- Lemma: `dropWhile` drops a prefix on which the predicate holds. -/
theorem dropWhile_append_all (p : α → Bool) (l r : List α)
    (hl : ∀ c ∈ l, p c = true) :
    (l ++ r).dropWhile p = r.dropWhile p := by
  induction l with
  | nil => rfl
  | cons x t ih =>
    simp only [List.cons_append, List.dropWhile_cons,
      hl x (List.mem_cons_self x t), if_true, ih fun c hc => hl c (List.mem_cons_of_mem x hc)]

/-- Lemma: `takeWhile` keeps a list on which the predicate holds everywhere. -/
theorem takeWhile_all (p : α → Bool) (l : List α) (hl : ∀ c ∈ l, p c = true) :
    l.takeWhile p = l := by
  have := takeWhile_append_all p l [] hl
  simpa using this

/-- Membership survives `dropWhile`. -/
theorem mem_of_mem_dropWhile (p : α → Bool) (l : List α) (a : α)
    (h : a ∈ l.dropWhile p) : a ∈ l := by
  induction l with
  | nil => simp at h
  | cons x t ih =>
    rw [List.dropWhile_cons] at h
    by_cases hx : p x = true
    · rw [if_pos hx] at h
      exact List.mem_cons_of_mem x (ih h)
    · rw [if_neg hx] at h
      exact h

/-- Letters are not whitespace. -/
theorem jsSpace_of_alpha {c : Char} (h : jsAlpha c = true) : jsSpace c = false := by
  have h1 : c ≠ ' ' := by rintro rfl; exact absurd h (by decide)
  have h2 : c ≠ '\t' := by rintro rfl; exact absurd h (by decide)
  have h3 : c ≠ '\n' := by rintro rfl; exact absurd h (by decide)
  have h4 : c ≠ '\r' := by rintro rfl; exact absurd h (by decide)
  simp [jsSpace, h1, h2, h3, h4]

/-- Letters are not an opening parenthesis. -/
theorem alpha_ne_lparen {c : Char} (h : jsAlpha c = true) : c ≠ '(' := by
  rintro rfl; exact absurd h (by decide)

/-- Running `matchLambda` at the start of a getter source of the shape
`p => p.f` (parameter and field made of ASCII letters, the character
class the regex captures) captures `(p, p, f)`. -/
theorem parseLambdaAt_arrow (p f : List Char) (hp : p ≠ [])
    (hpl : ∀ c ∈ p, jsAlpha c = true) (hf : f ≠ []) (hfl : ∀ c ∈ f, jsAlpha c = true) :
    parseLambdaAt (p ++ ' ' :: '=' :: '>' :: ' ' :: (p ++ '.' :: f))
    = some (p, p, f) := by
  obtain ⟨c₀, p₀, rfl⟩ := List.exists_cons_of_ne_nil hp
  have hc₀ : jsAlpha c₀ = true := hpl c₀ (List.mem_cons_self _ _)
  have halpha : ∀ c ∈ c₀ :: p₀, jsAlpha c = true := hpl
  have hfalpha : ∀ c ∈ f, jsAlpha c = true := hfl
  have aSpace : jsAlpha ' ' = false := by decide
  have aDot : jsAlpha '.' = false := by decide
  have sSpace : jsSpace ' ' = true := by decide
  have sEq : jsSpace '=' = false := by decide
  -- the optional parenthesis is skipped: the head is a letter
  have h1 : ∀ r : List Char, stripChar '(' (c₀ :: (p₀ ++ r)) = c₀ :: (p₀ ++ r) := by
    intro r
    simp [stripChar, alpha_ne_lparen hc₀]
  -- leading whitespace: none, the head is a letter
  have h2 : ∀ r : List Char, (c₀ :: (p₀ ++ r)).dropWhile jsSpace = c₀ :: (p₀ ++ r) := by
    intro r
    simp [List.dropWhile_cons, jsSpace_of_alpha hc₀]
  -- a capture group takes the whole letter run before a non-letter
  have h3 : ∀ c r, jsAlpha c = false →
      (c₀ :: (p₀ ++ c :: r)).takeWhile jsAlpha = c₀ :: p₀ := by
    intro c r hc
    have := takeWhile_append_all jsAlpha (c₀ :: p₀) (c :: r) halpha
    rw [List.cons_append] at this
    rw [this, List.takeWhile_cons, hc]
    simp
  have h4 : ∀ c r, jsAlpha c = false →
      (c₀ :: (p₀ ++ c :: r)).dropWhile jsAlpha = c :: r := by
    intro c r hc
    have := dropWhile_append_all jsAlpha (c₀ :: p₀) (c :: r) halpha
    rw [List.cons_append] at this
    rw [this, List.dropWhile_cons, hc]
    simp
  -- whitespace runs before and after the arrow
  have h5 : ∀ r : List Char, (' ' :: '=' :: r).dropWhile jsSpace = '=' :: r := by
    intro r
    rw [List.dropWhile_cons, sSpace, if_pos rfl, List.dropWhile_cons, sEq]
    simp
  have h6 : ∀ r : List Char, stripChar ')' ('=' :: r) = '=' :: r := by
    intro r
    simp [stripChar]
  have h7 : ∀ r : List Char, ('=' :: r).dropWhile jsSpace = '=' :: r := by
    intro r
    rw [List.dropWhile_cons, sEq]
    simp
  have h8 : ∀ r : List Char, (' ' :: c₀ :: (p₀ ++ r)).dropWhile jsSpace
      = c₀ :: (p₀ ++ r) := by
    intro r
    rw [List.dropWhile_cons, sSpace, if_pos rfl, h2]
  -- the third capture group is the whole field name
  have h11 : f.takeWhile jsAlpha = f := takeWhile_all _ _ hfalpha
  simp [parseLambdaAt, List.cons_append, h1, h2, h3 ' ' _ aSpace, h4 ' ' _ aSpace,
    h5, h6, h7, expectChar, h8, h3 '.' _ aDot, h4 '.' _ aDot, h11, hf]

/-- A successful `expectChar` found its character. -/
theorem expectChar_mem (c : Char) (s t : List Char) (h : expectChar c s = some t) :
    c ∈ s := by
  cases s with
  | nil => simp [expectChar] at h
  | cons x r =>
    by_cases hx : x = c
    · subst hx
      exact List.mem_cons_self _ _
    · simp [expectChar, hx] at h

/-- Lemma: `stripKeyword` returns a suffix: its members come from the input. -/
theorem stripKeyword_mem (ks s t : List Char) (h : stripKeyword ks s = some t) :
    ∀ a ∈ t, a ∈ s := by
  induction ks generalizing s with
  | nil =>
    simp only [stripKeyword, Option.some.injEq] at h
    subst h
    exact fun a ha => ha
  | cons k ks ih =>
    cases s with
    | nil => simp [stripKeyword] at h
    | cons c cs =>
      by_cases hc : c.toLower = k
      · simp only [stripKeyword, if_pos hc] at h
        exact fun a ha => List.mem_cons_of_mem _ (ih _ h a ha)
      · simp [stripKeyword, hc] at h

/-- A match of `matchFunction` requires an opening parenthesis in the
input. -/
theorem parseFunctionAt_lparen_mem (s : List Char) (g : Groups)
    (h : parseFunctionAt s = some g) : '(' ∈ s := by
  unfold parseFunctionAt at h
  cases hstrip : stripKeyword ['f','u','n','c','t','i','o','n'] s with
  | none => simp [hstrip] at h
  | some s1 =>
    simp only [hstrip] at h
    cases hexp : expectChar '(' (((s1.dropWhile jsSpace).dropWhile jsAlpha).dropWhile jsSpace) with
    | none => simp [hexp] at h
    | some s3 =>
      have h0 := expectChar_mem _ _ _ hexp
      have h1 := mem_of_mem_dropWhile _ _ _ h0
      have h2 := mem_of_mem_dropWhile _ _ _ h1
      have h3 := mem_of_mem_dropWhile _ _ _ h2
      exact stripKeyword_mem _ _ _ hstrip _ h3

/-- Lemma: `matchFunction` cannot match a source text containing no opening
parenthesis. -/
theorem execFunction_eq_none (s : List Char) (h : '(' ∉ s) :
    execFunction s = none := by
  induction s with
  | nil => rfl
  | cons c t ih =>
    have hp : parseFunctionAt (c :: t) = none := by
      cases hc : parseFunctionAt (c :: t) with
      | none => rfl
      | some g => exact absurd (parseFunctionAt_lparen_mem _ _ hc) h
    simp only [execFunction, hp]
    exact ih fun hm => h (List.mem_cons_of_mem _ hm)

/-- Lemma: the leftmost `matchLambda` match on a nonempty input that already
matches at position 0. -/
theorem execLambda_cons_of_some {c : Char} {t : List Char} {r : Groups}
    (h : parseLambdaAt (c :: t) = some r) : execLambda (c :: t) = some r := by
  simp only [execLambda, h]

/-- C7 counterexample: for the getter source `s => s.a.b` construction
does NOT fail — `matchLambda` matches the prefix `s => s.a`, the
parameter names agree, and a setter for the first-level field `a` is
synthesized (`Except.ok`, not a thrown configuration error). -/
theorem claim_C7_counterexample :
    synthField ['s',' ','=','>',' ','s','.','a','.','b'] = Except.ok ['a'] := by
  rfl

/-- C7 (amended): `ensureReducer` throws immediately at construction
time exactly when the getter's source matches neither single-field
regex shape ("too complex to parse") or when the matched parameter and
object names differ ("inconsistent parameter usage"); a two-level
getter such as `s => s.a.b` is not an error case — the lambda shape
matches its prefix `s => s.a` (see the counterexample). -/
theorem claim_C7 (V : Type) (src : List Char) :
    (ensureReducerMatch src = none →
      ensureReducer (V := V) none src
        = Except.error "too complex to parse, needs explicit reduce"
      ∧ synthField src = Except.error "too complex to parse, needs explicit reduce")
    ∧ ∀ g1 g2 g3, ensureReducerMatch src = some (g1, g2, g3) → g1 ≠ g2 →
      ensureReducer (V := V) none src
        = Except.error "inconsistent parameter usage"
      ∧ synthField src = Except.error "inconsistent parameter usage" := by
  constructor
  · intro h
    constructor <;> simp [ensureReducer, synthField, h, Except.map]
  · intro g1 g2 g3 h hne
    constructor <;> simp [ensureReducer, synthField, h, hne, Except.map]

/-- Witness for C7: `123` matches neither shape and errors out as too
complex; `a => b.c` matches the lambda shape with differing names and
errors out as inconsistent. -/
theorem claim_C7_witness :
    ensureReducerMatch ['1','2','3'] = none
    ∧ synthField ['1','2','3']
        = Except.error "too complex to parse, needs explicit reduce"
    ∧ ensureReducerMatch ['a',' ','=','>',' ','b','.','c']
        = some (['a'], ['b'], ['c'])
    ∧ synthField ['a',' ','=','>',' ','b','.','c']
        = Except.error "inconsistent parameter usage" :=
  ⟨rfl,
   ((claim_C7 Nat ['1','2','3']).1 rfl).2,
   rfl,
   ((claim_C7 Nat ['a',' ','=','>',' ','b','.','c']).2
      ['a'] ['b'] ['c'] rfl (by decide)).2⟩

/-- C8 (amended): for a getter whose source is a direct single-property
access on its sole parameter written in the character class the regexes
actually capture (`p => p.f`, names made of ASCII letters — the regexes
capture only `[a-z]+` runs under `/i`), `ensureReducer` synthesizes the
setter for field `f`, and that setter applied as `(state, v)` returns a
state whose field `f` is `v` and whose every other field is unchanged
from `state` (the input state is a value in this pure model, hence
unmutated).  Outside that character class the original claim fails: a
digit-bearing field name is captured truncated and a digit-bearing
parameter name matches nothing (see the counterexample). -/
theorem claim_C8 (V : Type) (p f : List Char) (hp : p ≠ [])
    (hpl : ∀ c ∈ p, jsAlpha c = true) (hf : f ≠ []) (hfl : ∀ c ∈ f, jsAlpha c = true) :
    synthField (p ++ ' ' :: '=' :: '>' :: ' ' :: (p ++ '.' :: f)) = Except.ok f
    ∧ ensureReducer (V := V) none (p ++ ' ' :: '=' :: '>' :: ' ' :: (p ++ '.' :: f))
        = Except.ok (synthSetter f)
    ∧ ∀ (state : JsObj V) (v : V),
        synthSetter f state v (String.mk f) = some v
        ∧ ∀ g, g ≠ String.mk f → synthSetter f state v g = state g := by
  have hP : '(' ∉ p := fun h => absurd (hpl _ h) (by decide)
  have hF : '(' ∉ f := fun h => absurd (hfl _ h) (by decide)
  have hne : '(' ∉ p ++ ' ' :: '=' :: '>' :: ' ' :: (p ++ '.' :: f) := by
    intro hm
    simp only [List.mem_append, List.mem_cons] at hm
    rcases hm with h | h | h | h | h | h | h | h
    · exact hP h
    · exact absurd h (by decide)
    · exact absurd h (by decide)
    · exact absurd h (by decide)
    · exact absurd h (by decide)
    · exact hP h
    · exact absurd h (by decide)
    · exact hF h
  obtain ⟨c₀, p₀, hpc⟩ := List.exists_cons_of_ne_nil hp
  have hfun := execFunction_eq_none _ hne
  have hlam : execLambda (p ++ ' ' :: '=' :: '>' :: ' ' :: (p ++ '.' :: f))
      = some (p, p, f) := by
    subst hpc
    exact execLambda_cons_of_some (parseLambdaAt_arrow _ f (by simp) hpl hf hfl)
  have hmatch : ensureReducerMatch (p ++ ' ' :: '=' :: '>' :: ' ' :: (p ++ '.' :: f))
      = some (p, p, f) := by
    simp [ensureReducerMatch, hfun, hlam]
  refine ⟨?_, ?_, ?_⟩
  · simp [synthField, hmatch]
  · simp [ensureReducer, synthField, hmatch, Except.map]
  · intro state v
    refine ⟨?_, ?_⟩
    · simp [synthSetter, jsAmend]
    · intro g hg
      simp [synthSetter, jsAmend, hg]

/-- C8 counterexample: the original claim fails on direct
single-property getters whose names step outside `[a-z]+`.  For
`s => s.count2` the capture stops at the digit: a setter for the
truncated field `count` is synthesized, which writes `count` and
leaves the named field `count2` unchanged, so the claimed single-field
overwrite of the accessed field is violated; and for `s1 => s1.count`
(digit-bearing parameter) neither regex matches, so construction
throws instead of synthesizing a setter. -/
theorem claim_C8_counterexample :
    synthField ['s',' ','=','>',' ','s','.','c','o','u','n','t','2']
      = Except.ok ['c','o','u','n','t']
    ∧ synthSetter ['c','o','u','n','t'] (fun _ => (none : Option Nat)) 5 "count2"
      = none
    ∧ synthSetter ['c','o','u','n','t'] (fun _ => (none : Option Nat)) 5 "count"
      = some 5
    ∧ synthField ['s','1',' ','=','>',' ','s','1','.','c','o','u','n','t']
      = Except.error "too complex to parse, needs explicit reduce" := by
  refine ⟨rfl, ?_, ?_, rfl⟩
  · decide
  · decide

/-- Witness for C8: the getter source `s => s.count` synthesizes a
setter for field `count`; applied to the empty state and value 5 it
yields `count = 5` and leaves the field `price` unchanged (absent). -/
theorem claim_C8_witness :
    (['s'] : List Char) ≠ []
    ∧ synthField (['s'] ++ ' ' :: '=' :: '>' :: ' '
        :: (['s'] ++ '.' :: ['c','o','u','n','t'])) = Except.ok ['c','o','u','n','t']
    ∧ synthSetter ['c','o','u','n','t'] (fun _ => (none : Option Nat)) 5
        (String.mk ['c','o','u','n','t']) = some 5
    ∧ synthSetter ['c','o','u','n','t'] (fun _ => (none : Option Nat)) 5 "price"
        = none :=
  ⟨by decide,
   (claim_C8 Nat ['s'] ['c','o','u','n','t'] (by decide)
      (by decide) (by decide) (by decide)).1,
   ((claim_C8 Nat ['s'] ['c','o','u','n','t'] (by decide)
      (by decide) (by decide) (by decide)).2.2 (fun _ => none) 5).1,
   (((claim_C8 Nat ['s'] ['c','o','u','n','t'] (by decide)
      (by decide) (by decide) (by decide)).2.2 (fun _ => none) 5).2
      "price" (by decide)).trans rfl⟩

end Immuto
